import Mathlib

/-!
Shallow embedding of the RegExp library (src/RegExp/regex.h, src/RegExp/regex.c):
a pattern compiler producing a fixed-capacity instruction table and a
backtracking matcher walking that table against a subject string.

Modelling conventions, matching the C source:
 - C strings are `List Char`. A pointer into a buffer is modelled as the
   suffix starting at that pointer; reading byte `i` past a pointer uses
   `SGet`, which yields the NUL byte for out-of-range indices, so an
   embedded NUL behaves exactly like the C terminator.
 - `compile_pattern` receives the inner pattern text, which in memory is
   followed by the closing envelope bytes "/g" and the NUL terminator
   (`regex_prepare` strips the envelope but the bytes stay in the buffer);
   `srcOf` reproduces that layout, so lookaheads past the inner length read
   the same bytes the C code reads.
 - `str` fields of compiled instructions are pointers into the pattern text,
   modelled as the suffix from that pointer, with the separate `len` field
   delimiting the payload, as in C.
 - `len` fields are uint8_t (arithmetic modulo 256); `min`/`max` are int16_t,
   modelled as `Int` with truncation (`toInt16`) at the assignments where the
   C code narrows a wider value; the repetition counter `cnt` is int16_t but
   cannot overflow, because it only increments while strictly below `max`.
 - Loops whose progress is consumption of the scanned list are structural
   recursions on that list. The compile loop and the matcher instead walk by
   computed strides, so they carry an explicit recursion budget (`fuel`),
   decremented once per iteration or call; exhaustion returns the `none` of
   an `Option` result (for `class_char_loop` a plain junk value). The budget
   is an artifact of embedding general recursion, not part of the modelled
   behaviour: the compile loop consumes at least one source byte per
   iteration (`compile_loop_fuel` below proves its result independent of any
   sufficient budget), the class scan advances its index every iteration
   (`class_char_loop_gas` likewise), and theorems about the matcher hold for
   every budget, with concrete runs certifying their budget by evaluating to
   `some`.
 - The matcher reads instruction slots through an arbitrary memory function
   `mem : Nat → regex_pattern_t`, as the C matcher follows a raw pointer;
   `memOf` restricts it to a compiled program, reading slots past the end of
   the list as the zeroed Empty sentinel. Whether the matcher can actually
   read past the compiled region (undefined memory in C) is examined by
   comparing runs under memories that agree on the compiled slots.
 - The C matcher's `match_char_sequence(r, p, s, cont)` either just reports a
   match (`cont = 0`) or chains into `match_pattern` (`cont = 1`); here
   `match_char_sequence` returns the advanced subject on success and the two
   call sites apply the behaviour the flag selects.
-/

namespace RegexC

/-- List of possible regex pattern types, from regex.h. -/
inductive regex_pattern_type_t where
  | P_UNKNOWN
  | P_BEGIN
  | P_QM
  | P_DOT
  | P_OR
  | P_CHAR
  | P_CHAR_SEQUENCE
  | P_CHAR_CLASS
  | P_CHAR_CLASS_NOT
  | P_END
  | P_EMPTY
  | P_CAPTURE_START
  | P_CAPTURE_END
deriving DecidableEq, Repr

open regex_pattern_type_t

/-- Information about a single pattern after compilation (regex.h).
The C struct keeps `str`/`ch` in a union; no code path reads the member the
other kind of instruction wrote, so both are separate fields here. The
defaults are the all-zero state `memset` produces. -/
structure regex_pattern_t where
  str : List Char := []
  ch : Char := '\x00'
  len : Nat := 0
  type : regex_pattern_type_t := P_UNKNOWN
  min : Int := 0
  max : Int := 0
deriving DecidableEq, Repr

/-- Read the byte at offset `i` past a pointer into a C buffer; out of range
reads the NUL terminator, mirroring C string layout. -/
def SGet (l : List Char) (i : Nat) : Char := l.getD i '\x00'

/-- Read the byte a subject-string pointer points at; the empty suffix reads
the NUL terminator. -/
def cAt (s : List Char) : Char := s.headD '\x00'

/-- RANGE_MAX, the sentinel bound 0x7FFF standing for an unbounded maximum. -/
def RANGE_MAX : Int := 32767

/-- IS_DIGIT macro. -/
def IS_DIGIT (x : Char) : Bool := decide ('0' ≤ x ∧ x ≤ '9')

/-- IS_SPECIAL_META_CHAR macro: the class-escape letters. -/
def IS_SPECIAL_META_CHAR (x : Char) : Bool :=
  x = 's' || x = 'S' || x = 'w' || x = 'W' || x = 'd' || x = 'D'

/-- IS_SPECIAL_CHAR macro. The C macro lists the closing curly brace twice
and never lists the closing square bracket; both quirks are kept. -/
def IS_SPECIAL_CHAR (x : Char) : Bool :=
  x = '^' || x = '$' || x = '.' || x = '*' || x = '+' || x = '?' || x = '|' ||
  x = '(' || x = ')' || x = '\x7b' || x = '\x7d' || x = '[' || x = '\x7d'

/-- IS_SPECIAL_MOD_CHAR macro: special characters a quantifier could follow. -/
def IS_SPECIAL_MOD_CHAR (x : Char) : Bool :=
  IS_SPECIAL_CHAR x &&
    !(x = '[' || x = '(' || x = '|' || x = ']' || x = ')' || x = '$')

/-- IS_S_CHAR macro: the whitespace set. -/
def IS_S_CHAR (x : Char) : Bool :=
  x = ' ' || x = '\n' || x = '\r' || x = '\t' || x = '\x0b' || x = '\x0c'

/-- IS_D_CHAR macro. -/
def IS_D_CHAR (x : Char) : Bool := IS_DIGIT x

/-- IS_W_CHAR macro: alphanumeric or underscore. -/
def IS_W_CHAR (x : Char) : Bool :=
  decide (('a' ≤ x ∧ x ≤ 'z') ∨ ('A' ≤ x ∧ x ≤ 'Z') ∨ ('0' ≤ x ∧ x ≤ '9') ∨ x = '_')

/-- IS_C_UPPER macro. -/
def IS_C_UPPER (x : Char) : Bool := decide ('A' ≤ x ∧ x ≤ 'Z')

/-- CHAR_TO_NUM macro. -/
def CHAR_TO_NUM (x : Char) : Nat := x.toNat - '0'.toNat

/-- Truncation of an unsigned value to the int16_t range, as happens when the
C code assigns a uint32_t repetition bound to the int16_t min/max fields. -/
def toInt16 (n : Nat) : Int :=
  if n % 65536 < 32768 then ((n % 65536 : Nat) : Int)
  else ((n % 65536 : Nat) : Int) - 65536

/-- The bytes following a pattern pointer in memory: the inner pattern text,
then the closing envelope bytes of the "/pattern/g" string. -/
def srcOf (pat : List Char) : List Char := pat ++ ['/', 'g']

/-- Parse a run of decimal digits, accumulating into a uint32_t; returns the
value, the number of bytes consumed, and the rest of the source. From the
brace-quantifier lookahead in compile_pattern. -/
def scan_digits : List Char → Nat → Nat × Nat × List Char
  | c :: r, num =>
    if IS_DIGIT c then
      match scan_digits r ((num * 10 + CHAR_TO_NUM c) % 4294967296) with
      | (v, k, rest) => (v, k + 1, rest)
    else (num, 0, c :: r)
  | [], num => (num, 0, [])

/-- Lookahead of the brace-quantifier case of compile_pattern: `p` points at
the opening brace; recognize min/max digits and the closing brace without
consuming input. Returns `(type, num1, num2, k)` for the three accepted
shapes (type 1: single count; type 2: min and comma; type 3: min comma max
with min ≤ max as uint32_t), where `k` is the distance from the opening brace
to just past the closing brace; malformed content yields `none` (type 0). -/
def brace_lookahead (p : List Char) : Option (Nat × Nat × Nat × Nat) :=
  if IS_DIGIT (SGet p 1) then
    match scan_digits (p.drop 1) 0 with
    | (num1, k1, r1) =>
      if SGet r1 0 = ',' then
        if IS_DIGIT (SGet r1 1) then
          match scan_digits (r1.drop 1) 0 with
          | (num2, k2, r2) =>
            if num1 > num2 then none
            else if SGet r2 0 = '\x7d' then some (3, num1, num2, 1 + k1 + 1 + k2 + 1)
            else none
        else
          if SGet r1 1 = '\x7d' then some (2, num1, 0, 1 + k1 + 2) else none
      else
        if SGet r1 0 = '\x7d' then some (1, num1, 0, 1 + k1 + 1) else none
  else none

/-- The brace case of compile_pattern applies its parsed bounds only when the
lookahead succeeded and at least one instruction was already emitted
(`if (type && i)` with `i` the instruction count); otherwise control falls
through to the default case. -/
def brace_try (p : List Char) (i : Nat) : Option (Nat × Nat × Nat × Nat) :=
  if SGet p 0 = '\x7b' ∧ i ≠ 0 then brace_lookahead p else none

/-- Scan of a bracket character class in compile_pattern: count payload bytes
until an unescaped closing bracket or the NUL terminator; `prev` is the byte
before the current one (`*(p - 1)`). The payload length is a uint8_t; the
second result is the number of bytes scanned past. -/
def class_scan : Char → List Char → Nat → Nat × Nat
  | _, [], n => (n, 0)
  | prev, c :: r, n =>
    if c = '\x00' then (n, 0)
    else if c = ']' ∧ prev ≠ '\\' then (n, 0)
    else
      match class_scan c r ((n + 1) % 256) with
      | (n2, k2) => (n2, k2 + 1)

/-- Scan of a literal character run in the default case of compile_pattern.
`p` points at the current byte (already counted in the uint8_t length `n`),
`len` is the remaining inner pattern length; the second result counts the
steps taken. The C loop condition `(len - 1) && *p` over size_t is exactly
`len ≠ 1 ∧ *p ≠ 0`. -/
def seq_scan : List Char → Nat → Nat → Nat × Nat
  | [], _, n => (n, 0)
  | c0 :: r, len, n =>
    if len = 1 ∨ c0 = '\x00' then (n, 0)
    else if SGet r 0 = '\\' then
      if IS_SPECIAL_META_CHAR (SGet r 1) then (n, 0)
      else
        match seq_scan r (len - 1) ((n + 1) % 256) with
        | (n2, k2) => (n2, k2 + 1)
    else if IS_SPECIAL_MOD_CHAR (SGet r 1) then (n, 0)
    else if c0 ≠ '\\' ∧ IS_SPECIAL_CHAR (SGet r 0) then (n, 0)
    else
      match seq_scan r (len - 1) ((n + 1) % 256) with
      | (n2, k2) => (n2, k2 + 1)

/-- Overwrite the min/max fields of the instruction `back` slots before the
next free slot, as the quantifier cases of compile_pattern do through
`patterns[i - 1]` or `patterns[i - 2]`. -/
def set_min_max (acc : List regex_pattern_t) (back : Nat) (mn mx : Int) :
    List regex_pattern_t :=
  acc.set (acc.length - back)
    { acc.getD (acc.length - back) {} with min := mn, max := mx }

/-- The last emitted instruction, `patterns[i - 1]`. -/
def last_instr (acc : List regex_pattern_t) : regex_pattern_t :=
  acc.getD (acc.length - 1) {}

/-- Shared body of the quantifier cases of compile_pattern (`*`, `+`, `?`):
set the bounds of the previous matchable instruction, reaching over an
immediately preceding capture marker; with no previous instruction the
switch case `break`s, so the zero-initialized slot is emitted. -/
def quant_apply (acc : List regex_pattern_t) (mn mx : Int) : List regex_pattern_t :=
  if 1 < acc.length ∧
      ((last_instr acc).type = P_CAPTURE_START ∨ (last_instr acc).type = P_CAPTURE_END) then
    set_min_max acc 2 mn mx
  else if 0 < acc.length then
    set_min_max acc 1 mn mx
  else
    acc ++ [({} : regex_pattern_t)]

/-- Bound application of a recognized brace quantifier: pick the target as
the quantifier cases do (skipping a capture marker) and store the bounds for
the recognized shape, truncating to int16_t. -/
def brace_apply (acc : List regex_pattern_t) (typ num1 num2 : Nat) :
    List regex_pattern_t :=
  let back : Nat :=
    if 1 < acc.length ∧
        ((last_instr acc).type = P_CAPTURE_START ∨ (last_instr acc).type = P_CAPTURE_END)
      then 2 else 1
  if typ = 1 then set_min_max acc back (toInt16 num1) (toInt16 num1)
  else if typ = 2 then set_min_max acc back (toInt16 num1) RANGE_MAX
  else set_min_max acc back (toInt16 num1) (toInt16 num2)

/-- One iteration of the compilation loop: the C switch on the current byte.
Returns how many source bytes the iteration consumes and the new instruction
list. A valid brace quantifier (with a preceding instruction) applies bounds
without emitting; a curly brace whose lookahead failed, or one with no
preceding instruction, falls through to the default case as in the C switch. -/
def compile_step (p : List Char) (len : Nat) (acc : List regex_pattern_t) :
    Nat × List regex_pattern_t :=
  match brace_try p acc.length with
  | some (typ, num1, num2, k) => (k, brace_apply acc typ num1 num2)
  | none =>
    if SGet p 0 = '^' then (1, acc ++ [{ type := P_BEGIN }])
    else if SGet p 0 = '$' then (1, acc ++ [{ type := P_END }])
    else if SGet p 0 = '.' then (1, acc ++ [{ type := P_DOT }])
    else if SGet p 0 = '*' then (1, quant_apply acc 0 RANGE_MAX)
    else if SGet p 0 = '+' then (1, quant_apply acc 1 RANGE_MAX)
    else if SGet p 0 = '?' then (1, quant_apply acc 0 1)
    else if SGet p 0 = '|' then (1, acc ++ [{ type := P_OR }])
    else if SGet p 0 = '(' then (1, acc ++ [{ type := P_CAPTURE_START }])
    else if SGet p 0 = ')' then (1, acc ++ [{ type := P_CAPTURE_END }])
    else if SGet p 0 = '\\' then
      -- escape: step to the next byte, then either a two-byte class escape
      -- or a plain character
      if IS_SPECIAL_META_CHAR (SGet p 1) then
        (2, acc ++ [{ type := P_CHAR_CLASS, str := p, len := 2 }])
      else
        (2, acc ++ [{ type := P_CHAR, ch := SGet p 1 }])
    else if SGet p 0 = '[' then
      if SGet p 1 = '^' then
        match class_scan '^' (p.drop 2) 0 with
        | (n, k) => (2 + k + 1, acc ++ [{ type := P_CHAR_CLASS_NOT, str := p.drop 2, len := n }])
      else
        match class_scan '[' (p.drop 1) 0 with
        | (n, k) => (1 + k + 1, acc ++ [{ type := P_CHAR_CLASS, str := p.drop 1, len := n }])
    else
      -- default: a maximal literal run, or a single character
      if 1 < len ∧ ¬ IS_SPECIAL_CHAR (SGet p 1) then
        match seq_scan p len 1 with
        | (n, k) => (k + 1, acc ++ [{ type := P_CHAR_SEQUENCE, str := p, len := n }])
      else
        (1, acc ++ [{ type := P_CHAR, ch := SGet p 0 }])

/-- The compilation loop of compile_pattern: one `compile_step` per source
position. `p` is the pattern pointer (a suffix of the source), `len` the
remaining inner length (PTR_INC decrements it with a floor at zero, which is
Nat subtraction), `acc` the instructions written so far (`acc.length` is
`i`), `cap` the caller-provided buffer capacity `p_totlen`. When the input
is exhausted the Empty sentinel is appended, without a capacity check,
mirroring the C code; `none` otherwise arises from the capacity check (or
from an exhausted recursion budget, which `compile_loop_fuel` rules out for
every budget beyond the remaining length). -/
def compile_loop (cap : Nat) : Nat → List Char → Nat → List regex_pattern_t →
    Option (List regex_pattern_t)
  | 0, _, len, acc =>
    if len = 0 then some (acc ++ [{ type := P_EMPTY }]) else none
  | fuel + 1, p, len, acc =>
    if len = 0 then
      some (acc ++ [{ type := P_EMPTY }])
    else if cap ≤ acc.length then
      none
    else
      match compile_step p len acc with
      | (k, acc2) => compile_loop cap fuel (p.drop k) (len - k) acc2

/-- Compile an inner pattern (envelope already stripped) into a buffer of
capacity `cap`; 1/0 of the C function becomes some/none. The recursion
budget `pat.length + 1` always suffices, since every loop iteration consumes
at least one byte of the remaining length (`compile_loop_fuel`). -/
def compile_pattern (pat : List Char) (cap : Nat) : Option (List regex_pattern_t) :=
  compile_loop cap (pat.length + 1) (srcOf pat) pat.length []

/-- Instruction memory of a compiled program: the C matcher follows a raw
pointer into the instruction buffer, modelled as a function from slot index
to instruction. Slots past the end of the list read as the zeroed Empty
sentinel here; reads outside the compiled region are examined by varying the
memory beyond it. -/
def memOf (prog : List regex_pattern_t) : Nat → regex_pattern_t :=
  fun i => prog.getD i { type := P_EMPTY }

/-- Alternative memory for the same program whose out-of-range slots are
all-zero (`P_UNKNOWN`) instructions instead of Empty sentinels; it agrees
with `memOf prog` on every compiled slot. -/
def mem_zeroed (prog : List regex_pattern_t) : Nat → regex_pattern_t :=
  fun i => prog.getD i {}

/-- CAN_MATCH_MORE macro: the pattern after the current one is not the end of
the program (also looking through a closing capture marker). -/
def CAN_MATCH_MORE (mem : Nat → regex_pattern_t) (ip : Nat) : Bool :=
  !((mem (ip + 1)).type = P_EMPTY ||
    ((mem (ip + 1)).type = P_CAPTURE_END ∧ (mem (ip + 2)).type = P_EMPTY))

/-- match_class_range: `str` is the pointer into the class payload, `len` the
payload bytes remaining from there, `c` the input character. A match needs at
least three remaining bytes, a dash after the pointer and a non-dash input. -/
def match_class_range (str : List Char) (len : Nat) (c : Char) : Bool :=
  if 3 ≤ len ∧ SGet str 1 = '-' ∧ c ≠ '-' then
    decide (SGet str 0 ≤ c ∧ c ≤ SGet str 2)
  else false

/-- match_special_char: test input `c` against a class-escape letter `s_c`
(one of s, S, w, W, d, D); a lowercase letter is raised to uppercase by
subtracting 0x20, and an uppercase letter negates the result. -/
def match_special_char (s_c : Char) (c : Char) : Bool :=
  let u := if IS_C_UPPER s_c then s_c else Char.ofNat (s_c.toNat - 0x20)
  let result :=
    if u = 'S' then IS_S_CHAR c
    else if u = 'W' then IS_W_CHAR c
    else if u = 'D' then IS_D_CHAR c
    else false
  if IS_C_UPPER s_c then !result else result

/-- The payload scan loop of match_class_char, from payload index `i`: try a
range window, then an escape (class escape or escaped literal), then the
plain-byte alternatives, advancing one byte (two for an escape) on failure.
`gas` is the recursion budget; the index grows every iteration, so the
budget `p.len + 1` used by `match_class_char` never runs out
(`class_char_loop_gas`). -/
def class_char_loop (p : regex_pattern_t) (c : Char) : Nat → Nat → Bool
  | _, 0 => false
  | i, gas + 1 =>
    if i < p.len then
      if match_class_range (p.str.drop i) (p.len - i) c then true
      else if SGet p.str i = '\\' then
        if IS_SPECIAL_META_CHAR (SGet p.str (i + 1)) then
          if match_special_char (SGet p.str (i + 1)) c then true
          else class_char_loop p c (i + 2) gas
        else if SGet p.str (i + 1) = c then true
        else class_char_loop p c (i + 2) gas
      else if c = SGet p.str i then
        if c = '-' then decide (SGet p.str 0 = '-' ∨ SGet p.str (p.len - 1) = '-')
        else true
      else class_char_loop p c (i + 1) gas
    else false

/-- match_class_char: scan the class payload of instruction `p` against the
input character. -/
def match_class_char (p : regex_pattern_t) (c : Char) : Bool :=
  class_char_loop p c 0 (p.len + 1)

/-- match_one_char: match a single subject character against one pattern. -/
def match_one_char (p : regex_pattern_t) (s : List Char) : Bool :=
  if p.type = P_DOT then true
  else if p.type = P_CHAR_CLASS then match_class_char p (cAt s)
  else if p.type = P_CHAR_CLASS_NOT then !match_class_char p (cAt s)
  else p.ch = cAt s

/-- The comparison loop of match_char_sequence: walk payload index `i` and
the subject together; a backslash in the payload moves to the next payload
byte before comparing. Returns the final index and subject position. Each
iteration consumes a subject character, so this is structural recursion on
the subject. -/
def seq_loop (str : List Char) (len : Nat) : Nat → List Char → Nat × List Char
  | i, [] => (i, [])
  | i, c :: r =>
    if i < len then
      if c = '\x00' then (i, c :: r)
      else
        let i2 := if SGet str i = '\\' then i + 1 else i
        if c = SGet str i2 then seq_loop str len (i2 + 1) r
        else (i2, c :: r)
    else (i, c :: r)

/-- match_char_sequence, pure matching part: `some` of the advanced subject
when the loop ends with its index at `len`, `none` otherwise. The C `cont`
flag selects what the caller does with a success; the call sites below apply
that behaviour. -/
def match_char_sequence (p : regex_pattern_t) (s : List Char) : Option (List Char) :=
  match seq_loop p.str p.len 0 s with
  | (i, s2) => if i = p.len then some s2 else none

/-- The Or-skip loop of match_pattern: while the current instruction is an
Or, jump over the Or and the alternative after it (`p += 2`). Over an
arbitrary instruction memory this loop need not terminate, hence the
budget. -/
def m_skip_or_chain (mem : Nat → regex_pattern_t) : Nat → Nat → Option Nat
  | 0, _ => none
  | fuel + 1, ip =>
    if (mem ip).type = P_OR then m_skip_or_chain mem fuel (ip + 2) else some ip

mutual

/-- match_pattern: match the instruction memory from slot `ip` against the
subject `s`; `prev_result` reports whether the previous atom succeeded,
consulted only by Or instructions. The C do-while loop is the tail
recursion; `return` becomes `some`, `p++; continue` a tail call, and `fuel`
the recursion budget.

The C locals `result` and `ret` are declared once per invocation, before the
do-while, and `ret` is never reset inside it: once one of the four evaluable
branches (Empty-or-QM, min/max range, char sequence, end-of-string) has run,
every later iteration of the same invocation still sees `ret = 1`, and a
bare single-character atom reached in that state is failed through the
`if (ret)` block without `match_one_char` ever being consulted. That sticky
flag is the `ret` parameter here. The stale `result` it is read with is
always 0: whenever a branch assigns `result = 1` (with `ret = 1`), the
function returns immediately, so an iteration entered with `ret = 1` and no
branch firing reads `result = 0`. Chained invocations — the sequence
continuation, the range continuation and probes, each search offset — are
fresh calls in C and start with `ret = false`. -/
def m_match_pattern (mem : Nat → regex_pattern_t) : Nat → Nat → List Char → Bool →
    Bool → Option Bool
  | 0, _, _, _, _ => none
  | fuel + 1, ip, s, prev_result, ret =>
    if (mem ip).type = P_OR then
      if prev_result then
        match m_skip_or_chain mem (fuel + 1) ip with
        | none => none
        | some ip2 => m_match_pattern mem fuel ip2 s false ret
      else m_match_pattern mem fuel (ip + 1) s false ret
    else if (mem ip).type = P_CAPTURE_START then
      m_match_pattern mem fuel (ip + 1) s prev_result ret
    else if (mem ip).type = P_CAPTURE_END then
      m_match_pattern mem fuel (ip + 1) s prev_result ret
    else if (mem ip).type = P_EMPTY ∨ (mem (ip + 1)).type = P_QM then
      some true
    else if (mem ip).min ≠ 0 ∨ (mem ip).max ≠ 0 then
      match m_match_pattern_range mem fuel ip s with
      | none => none
      | some true => some true
      | some false =>
        if (mem (ip + 1)).type = P_OR then m_match_pattern mem fuel (ip + 1) s false true
        else some false
    else if (mem ip).type = P_CHAR_SEQUENCE then
      match match_char_sequence (mem ip) s with
      | some s2 =>
        match m_match_pattern mem fuel (ip + 1) s2 true false with
        | none => none
        | some true => some true
        | some false =>
          if (mem (ip + 1)).type = P_OR then m_match_pattern mem fuel (ip + 1) s false true
          else some false
      | none =>
        if (mem (ip + 1)).type = P_OR then m_match_pattern mem fuel (ip + 1) s false true
        else some false
    else if (mem ip).type = P_END ∧ (mem (ip + 1)).type = P_EMPTY then
      if cAt s = '\x00' then some true
      else if (mem (ip + 1)).type = P_OR then m_match_pattern mem fuel (ip + 1) s false true
      else some false
    else
      if ret then
        if (mem (ip + 1)).type = P_OR then m_match_pattern mem fuel (ip + 1) s false true
        else some false
      else if cAt s ≠ '\x00' ∧ match_one_char (mem ip) s then
        m_match_pattern mem fuel (ip + 1) s.tail true false
      else if (mem (ip + 1)).type = P_OR then m_match_pattern mem fuel (ip + 1) s false false
      else some false

/-- match_pattern_range: run the greedy consumption loop, then succeed
exactly when the final count lies within the bounds and the rest of the
program (when there is any) matches from the final position. -/
def m_match_pattern_range (mem : Nat → regex_pattern_t) : Nat → Nat → List Char →
    Option Bool
  | 0, _, _ => none
  | fuel + 1, ip, s =>
    match m_range_loop mem fuel ip s 0 with
    | none => none
    | some (cnt, s2) =>
      if (mem ip).min ≤ cnt ∧ cnt ≤ (mem ip).max then
        if CAN_MATCH_MORE mem ip then m_match_pattern mem fuel (ip + 1) s2 true false
        else some true
      else some false

/-- The consumption loop of match_pattern_range: while below `max` and input
remains, consume one atom (a whole char sequence, advancing by the payload
length field, or a single character); after each consumption probe the rest
of the program and stop as soon as the probe succeeds with at least `min`
repetitions consumed. -/
def m_range_loop (mem : Nat → regex_pattern_t) : Nat → Nat → List Char → Int →
    Option (Int × List Char)
  | 0, _, _, _ => none
  | fuel + 1, ip, s, cnt =>
    if cnt < (mem ip).max ∧ cAt s ≠ '\x00' then
      match
        (if (mem ip).type = P_CHAR_SEQUENCE then
          (if (match_char_sequence (mem ip) s).isSome then
            some (s.drop (mem ip).len)
          else none)
        else
          (if match_one_char (mem ip) s then some s.tail else none)) with
      | none => some (cnt, s)
      | some s2 =>
        if CAN_MATCH_MORE mem ip then
          match m_match_pattern mem fuel (ip + 1) s2 false false with
          | none => none
          | some true =>
            if (mem ip).min ≤ cnt + 1 then some (cnt + 1, s2)
            else m_range_loop mem fuel ip s2 (cnt + 1)
          | some false => m_range_loop mem fuel ip s2 (cnt + 1)
        else m_range_loop mem fuel ip s2 (cnt + 1)
    else some (cnt, s)

end

/-- The candidate-offset loop of regex_match: try the matcher at the current
offset, then advance one character while input remains (the body of the C
do-while runs before the test). Each step consumes a subject character, so
this is structural recursion on the subject; every offset gets the same
matcher budget. -/
def search_loop (mem : Nat → regex_pattern_t) (fuel ip : Nat) : List Char → Option Bool
  | [] => m_match_pattern mem fuel ip [] false false
  | c :: r =>
    match m_match_pattern mem fuel ip (c :: r) false false with
    | none => none
    | some true => some true
    | some false => if c ≠ '\x00' then search_loop mem fuel ip r else some false

/-- regex_match: when the program starts with a Begin anchor, skip it and try
offset zero only (the do-while runs exactly once); otherwise try every
candidate start offset left to right. -/
def regex_match (prog : List regex_pattern_t) (fuel : Nat) (str : List Char) :
    Option Bool :=
  if (memOf prog 0).type = P_BEGIN then
    m_match_pattern (memOf prog) fuel 1 str false false
  else search_loop (memOf prog) fuel 0 str

/-- Compile an inner pattern with an ample instruction buffer (capacity 100,
the size of the original library's static pattern table) and run the matcher
on a subject with an ample budget; `none` reports a compile failure (or an
exhausted matcher budget, which evaluation to `some` refutes per run). -/
def regex_run (pattern subject : String) : Option Bool :=
  (compile_pattern pattern.toList 100).bind
    (fun prog => regex_match prog 1000 subject.toList)

/-- The instruction list compile_pattern produces for the pattern "a|",
whose last instruction before the sentinel is an Or. -/
def prog_trailing_or : List regex_pattern_t :=
  [{ ch := 'a', type := P_CHAR }, { type := P_OR }, { type := P_EMPTY }]

/-- The instruction list compile_pattern produces for the pattern "*a": the
quantifier at the start has no previous instruction, so the zero-initialized
slot is emitted before the literal. -/
def prog_leading_star : List regex_pattern_t :=
  [({} : regex_pattern_t), { ch := 'a', type := P_CHAR }, { type := P_EMPTY }]

/-- Character-class semantics as the specification words them (spec section
4.2, claim C6): scan the payload left to right from index `i`, first
satisfied alternative wins. The alternatives at one position: a window of
three or more remaining bytes with a dash in the middle (input not itself a
dash) is a range test; an escape followed by a class letter applies the
special-class test, an escape followed by any other byte matches that byte
by equality; a bare dash matches a dash input only as first or last payload
byte; any other byte matches by exact equality. `gas` embeds the recursion
as in `class_char_loop`. -/
def class_spec_loop (p : regex_pattern_t) (c : Char) : Nat → Nat → Bool
  | _, 0 => false
  | i, gas + 1 =>
    if i < p.len then
      if 3 ≤ p.len - i ∧ SGet p.str (i + 1) = '-' ∧ c ≠ '-' ∧
          SGet p.str i ≤ c ∧ c ≤ SGet p.str (i + 2) then true
      else if SGet p.str i = '\\' then
        if IS_SPECIAL_META_CHAR (SGet p.str (i + 1)) then
          match_special_char (SGet p.str (i + 1)) c || class_spec_loop p c (i + 2) gas
        else
          decide (SGet p.str (i + 1) = c) || class_spec_loop p c (i + 2) gas
      else if SGet p.str i = '-' ∧ c = '-' then
        decide (SGet p.str 0 = '-' ∨ SGet p.str (p.len - 1) = '-')
      else if SGet p.str i = c then true
      else class_spec_loop p c (i + 1) gas
    else false

/-- The whole-payload scan of the specification's class semantics. -/
def class_spec (p : regex_pattern_t) (c : Char) : Bool :=
  class_spec_loop p c 0 (p.len + 1)

/-- The instruction list compile_pattern produces for the pattern "a|b",
used to exercise the Or-resolution equations at concrete slots. -/
def prog_ab_alt : List regex_pattern_t :=
  [{ ch := 'a', type := P_CHAR }, { type := P_OR }, { ch := 'b', type := P_CHAR },
   { type := P_EMPTY }]

/-- The instruction list compile_pattern produces for the pattern "ab|c": a
two-byte literal run, an Or, a single character and the sentinel. The run
scan stops before the bar, so the first branch is one sequence instruction
and the second a bare character instruction. -/
def prog_ab_or_c : List regex_pattern_t :=
  [{ str := ['a', 'b', '|', 'c', '/', 'g'], len := 2, type := P_CHAR_SEQUENCE },
   { type := P_OR }, { ch := 'c', type := P_CHAR }, { type := P_EMPTY }]

/-- The instruction list compile_pattern produces for the pattern "a\x7b1,3\x7db":
a repetition-bearing character instruction followed by a plain one, used to
exercise the range-matcher equations at concrete slots. -/
def prog_a13b : List regex_pattern_t :=
  [{ ch := 'a', type := P_CHAR, min := 1, max := 3 }, { ch := 'b', type := P_CHAR },
   { type := P_EMPTY }]

/-- The instruction list compile_pattern produces for the pattern "^a",
whose leading instruction is the Begin anchor. -/
def prog_anchor : List regex_pattern_t :=
  [{ type := P_BEGIN }, { ch := 'a', type := P_CHAR }, { type := P_EMPTY }]

/-! Soundness of the recursion budgets: the compile loop consumes at least
one byte of the remaining length per iteration, and the class scan advances
its payload index every iteration, so their results do not depend on the
budget once it exceeds the remaining work. -/

theorem brace_try_pos {p : List Char} {i : Nat} {t n1 n2 k : Nat}
    (h : brace_try p i = some (t, n1, n2, k)) : 1 ≤ k := by
  rw [brace_try] at h
  split at h
  · rw [brace_lookahead] at h
    split at h
    · rcases h1 : scan_digits (p.drop 1) 0 with ⟨v1, k1, r1⟩
      rw [h1] at h
      dsimp only at h
      repeat' split at h
      all_goals try exact Option.noConfusion h
      all_goals injection h with h
      all_goals simp only [Prod.mk.injEq] at h
      all_goals omega
    · exact Option.noConfusion h
  · exact Option.noConfusion h

theorem compile_step_cases (p : List Char) (len : Nat) (acc : List regex_pattern_t) :
    (∃ typ n1 n2 k, brace_try p acc.length = some (typ, n1, n2, k) ∧
        compile_step p len acc = (k, brace_apply acc typ n1 n2)) ∨
    (∃ k q, 1 ≤ k ∧ q.min = 0 ∧ q.max = 0 ∧ compile_step p len acc = (k, acc ++ [q])) ∨
    (∃ mn mx, 0 ≤ mn ∧ mn ≤ mx ∧ compile_step p len acc = (1, quant_apply acc mn mx)) := by
  rcases hbt : brace_try p acc.length with _ | ⟨typ, num1, num2, k⟩
  case some =>
    exact Or.inl ⟨typ, num1, num2, k, rfl, by rw [compile_step, hbt]⟩
  case none =>
  have hstep : ∀ r, (match brace_try p acc.length with
      | some (typ, num1, num2, k) => (k, brace_apply acc typ num1 num2)
      | none => r) = r := by
    intro r
    rw [hbt]
  by_cases h1 : SGet p 0 = '^'
  · refine Or.inr (Or.inl ⟨1, { type := P_BEGIN }, by omega, rfl, rfl, ?_⟩)
    rw [compile_step, hbt]
    rw [if_pos h1]
  · by_cases h2 : SGet p 0 = '$'
    · refine Or.inr (Or.inl ⟨1, { type := P_END }, by omega, rfl, rfl, ?_⟩)
      rw [compile_step, hbt]
      rw [if_neg h1, if_pos h2]
    · by_cases h3 : SGet p 0 = '.'
      · refine Or.inr (Or.inl ⟨1, { type := P_DOT }, by omega, rfl, rfl, ?_⟩)
        rw [compile_step, hbt]
        rw [if_neg h1, if_neg h2, if_pos h3]
      · by_cases h4 : SGet p 0 = '*'
        · refine Or.inr (Or.inr ⟨0, RANGE_MAX, by omega, by rw [RANGE_MAX]; omega, ?_⟩)
          rw [compile_step, hbt]
          rw [if_neg h1, if_neg h2, if_neg h3, if_pos h4]
        · by_cases h5 : SGet p 0 = '+'
          · refine Or.inr (Or.inr ⟨1, RANGE_MAX, by omega, by rw [RANGE_MAX]; omega, ?_⟩)
            rw [compile_step, hbt]
            rw [if_neg h1, if_neg h2, if_neg h3, if_neg h4, if_pos h5]
          · by_cases h6 : SGet p 0 = '?'
            · refine Or.inr (Or.inr ⟨0, 1, by omega, by omega, ?_⟩)
              rw [compile_step, hbt]
              rw [if_neg h1, if_neg h2, if_neg h3, if_neg h4, if_neg h5, if_pos h6]
            · by_cases h7 : SGet p 0 = '|'
              · refine Or.inr (Or.inl ⟨1, { type := P_OR }, by omega, rfl, rfl, ?_⟩)
                rw [compile_step, hbt]
                rw [if_neg h1, if_neg h2, if_neg h3, if_neg h4, if_neg h5, if_neg h6,
                  if_pos h7]
              · by_cases h8 : SGet p 0 = '('
                · refine Or.inr (Or.inl ⟨1, { type := P_CAPTURE_START }, by omega, rfl, rfl, ?_⟩)
                  rw [compile_step, hbt]
                  rw [if_neg h1, if_neg h2, if_neg h3, if_neg h4, if_neg h5, if_neg h6,
                    if_neg h7, if_pos h8]
                · by_cases h9 : SGet p 0 = ')'
                  · refine Or.inr (Or.inl ⟨1, { type := P_CAPTURE_END }, by omega, rfl, rfl, ?_⟩)
                    rw [compile_step, hbt]
                    rw [if_neg h1, if_neg h2, if_neg h3, if_neg h4, if_neg h5, if_neg h6,
                      if_neg h7, if_neg h8, if_pos h9]
                  · by_cases h10 : SGet p 0 = '\\'
                    · by_cases h11 : IS_SPECIAL_META_CHAR (SGet p 1) = true
                      · refine Or.inr (Or.inl
                          ⟨2, { type := P_CHAR_CLASS, str := p, len := 2 },
                            by omega, rfl, rfl, ?_⟩)
                        rw [compile_step, hbt]
                        rw [if_neg h1, if_neg h2, if_neg h3, if_neg h4, if_neg h5,
                          if_neg h6, if_neg h7, if_neg h8, if_neg h9, if_pos h10,
                          if_pos h11]
                      · refine Or.inr (Or.inl
                          ⟨2, { type := P_CHAR, ch := SGet p 1 }, by omega, rfl, rfl, ?_⟩)
                        rw [compile_step, hbt]
                        rw [if_neg h1, if_neg h2, if_neg h3, if_neg h4, if_neg h5,
                          if_neg h6, if_neg h7, if_neg h8, if_neg h9, if_pos h10,
                          if_neg h11]
                    · by_cases h12 : SGet p 0 = '['
                      · by_cases h13 : SGet p 1 = '^'
                        · rcases hcs : class_scan '^' (p.drop 2) 0 with ⟨n', k'⟩
                          refine Or.inr (Or.inl
                            ⟨2 + k' + 1, { type := P_CHAR_CLASS_NOT, str := p.drop 2, len := n' },
                              by omega, rfl, rfl, ?_⟩)
                          rw [compile_step, hbt]
                          rw [if_neg h1, if_neg h2, if_neg h3, if_neg h4, if_neg h5,
                            if_neg h6, if_neg h7, if_neg h8, if_neg h9, if_neg h10,
                            if_pos h12, if_pos h13, hcs]
                        · rcases hcs : class_scan '[' (p.drop 1) 0 with ⟨n', k'⟩
                          refine Or.inr (Or.inl
                            ⟨1 + k' + 1, { type := P_CHAR_CLASS, str := p.drop 1, len := n' },
                              by omega, rfl, rfl, ?_⟩)
                          rw [compile_step, hbt]
                          rw [if_neg h1, if_neg h2, if_neg h3, if_neg h4, if_neg h5,
                            if_neg h6, if_neg h7, if_neg h8, if_neg h9, if_neg h10,
                            if_pos h12, if_neg h13, hcs]
                      · by_cases h14 : 1 < len ∧ ¬ IS_SPECIAL_CHAR (SGet p 1) = true
                        · rcases hss : seq_scan p len 1 with ⟨n', k'⟩
                          refine Or.inr (Or.inl
                            ⟨k' + 1, { type := P_CHAR_SEQUENCE, str := p, len := n' },
                              by omega, rfl, rfl, ?_⟩)
                          rw [compile_step, hbt]
                          rw [if_neg h1, if_neg h2, if_neg h3, if_neg h4, if_neg h5,
                            if_neg h6, if_neg h7, if_neg h8, if_neg h9, if_neg h10,
                            if_neg h12, if_pos h14, hss]
                        · refine Or.inr (Or.inl
                            ⟨1, { type := P_CHAR, ch := SGet p 0 }, by omega, rfl, rfl, ?_⟩)
                          rw [compile_step, hbt]
                          rw [if_neg h1, if_neg h2, if_neg h3, if_neg h4, if_neg h5,
                            if_neg h6, if_neg h7, if_neg h8, if_neg h9, if_neg h10,
                            if_neg h12, if_neg h14]

theorem compile_step_pos (p : List Char) (len : Nat) (acc : List regex_pattern_t) :
    1 ≤ (compile_step p len acc).1 := by
  rcases compile_step_cases p len acc with
    ⟨typ, n1, n2, k, hbt, hcs⟩ | ⟨k, q, hk, _, _, hcs⟩ | ⟨mn, mx, _, _, hcs⟩
  · rw [hcs]
    exact brace_try_pos hbt
  · rw [hcs]
    exact hk
  · rw [hcs]

theorem compile_loop_fuel (cap : Nat) :
    ∀ len fuel1 fuel2 p acc, len < fuel1 → len < fuel2 →
      compile_loop cap fuel1 p len acc = compile_loop cap fuel2 p len acc := by
  intro len
  induction len using Nat.strong_induction_on with
  | _ len ih =>
    intro fuel1 fuel2 p acc h1 h2
    obtain ⟨g1, rfl⟩ : ∃ g, fuel1 = g + 1 := ⟨fuel1 - 1, by omega⟩
    obtain ⟨g2, rfl⟩ : ∃ g, fuel2 = g + 1 := ⟨fuel2 - 1, by omega⟩
    rw [compile_loop, compile_loop]
    by_cases hl : len = 0
    · rw [if_pos hl, if_pos hl]
    · rw [if_neg hl, if_neg hl]
      by_cases hcap : cap ≤ acc.length
      · rw [if_pos hcap, if_pos hcap]
      · rw [if_neg hcap, if_neg hcap]
        rcases hcs : compile_step p len acc with ⟨k, acc2⟩
        dsimp only
        have hk : 1 ≤ k := by
          have := compile_step_pos p len acc
          rw [hcs] at this
          exact this
        exact ih _ (by omega) _ _ _ _ (by omega) (by omega)

theorem class_char_loop_gas (p : regex_pattern_t) (c : Char) :
    ∀ gas1 gas2 i, p.len - i < gas1 → p.len - i < gas2 →
      class_char_loop p c i gas1 = class_char_loop p c i gas2 := by
  intro gas1
  induction gas1 with
  | zero => omega
  | succ g1 ihg =>
    intro gas2 i hg1 hg2
    obtain ⟨g2, rfl⟩ : ∃ g, gas2 = g + 1 := ⟨gas2 - 1, by omega⟩
    rw [class_char_loop, class_char_loop]
    by_cases hi : i < p.len
    · rw [if_pos hi, if_pos hi]
      by_cases hr : match_class_range (p.str.drop i) (p.len - i) c = true
      · rw [if_pos hr, if_pos hr]
      · rw [if_neg hr, if_neg hr]
        by_cases he : SGet p.str i = '\\'
        · rw [if_pos he, if_pos he]
          by_cases hm : IS_SPECIAL_META_CHAR (SGet p.str (i + 1)) = true
          · rw [if_pos hm, if_pos hm]
            by_cases hsp : match_special_char (SGet p.str (i + 1)) c = true
            · rw [if_pos hsp, if_pos hsp]
            · rw [if_neg hsp, if_neg hsp]
              exact ihg _ _ (by omega) (by omega)
          · rw [if_neg hm, if_neg hm]
            by_cases hl : SGet p.str (i + 1) = c
            · rw [if_pos hl, if_pos hl]
            · rw [if_neg hl, if_neg hl]
              exact ihg _ _ (by omega) (by omega)
        · rw [if_neg he, if_neg he]
          by_cases hq : c = SGet p.str i
          · rw [if_pos hq, if_pos hq]
          · rw [if_neg hq, if_neg hq]
            exact ihg _ _ (by omega) (by omega)
    · rw [if_neg hi, if_neg hi]

/-! Claim C3. -/

/-- C3: refuted by the code. With a caller-provided capacity of one slot,
the pattern "a" needs two slots counting the terminating Empty sentinel;
the capacity check guards only the slots written inside the loop, so
compilation nevertheless reports success and stores the sentinel at index 1,
one past the provided buffer (the result list mirrors the buffer writes, one
slot per index, so a result longer than the capacity is a write at an index
at or beyond it). -/
theorem C3_sentinel_write_unchecked :
    compile_pattern ['a'] 1 =
      some [{ ch := 'a', type := P_CHAR }, { type := P_EMPTY }] ∧
    1 < ((compile_pattern ['a'] 1).getD []).length := by
  constructor
  · decide
  · decide

/-! Claim C10. -/

theorem mp_leading_star_false (fuel : Nat) (s : List Char) :
    m_match_pattern (memOf prog_leading_star) (fuel + 1) 0 s false false = some false := by
  rw [m_match_pattern]
  cases s with
  | nil => simp [memOf, prog_leading_star, match_one_char, cAt]
  | cons c r =>
    by_cases hc : c = '\x00'
    · simp [memOf, prog_leading_star, match_one_char, cAt, hc]
    · have hc2 : ¬ ('\x00' = c) := fun h => hc h.symm
      simp [memOf, prog_leading_star, match_one_char, cAt, hc, hc2]

theorem search_leading_star_false (fuel : Nat) :
    ∀ s, search_loop (memOf prog_leading_star) (fuel + 1) 0 s = some false := by
  intro s
  induction s with
  | nil => rw [search_loop, mp_leading_star_false]
  | cons c r ih =>
    rw [search_loop, mp_leading_star_false]
    by_cases hc : c = '\x00'
    · simp [hc]
    · simp only [ne_eq, hc, not_false_eq_true, if_true, if_pos]
      exact ih

/-- C10: confirmed. A quantifier at the very start of the pattern is not a
compile error: compiling "*a" succeeds and emits a zero-initialized
P_UNKNOWN instruction (min = max = 0, ch = NUL) in the first slot; since the
matcher's default step compares that NUL character against a subject
character guarded to be non-NUL, the program matches no subject at any
offset, for any matcher budget. -/
theorem C10_leading_quantifier_matches_nothing :
    compile_pattern ['*', 'a'] 100 = some prog_leading_star ∧
    (∀ fuel s, regex_match prog_leading_star (fuel + 1) s = some false) := by
  constructor
  · decide
  · intro fuel s
    rw [regex_match, if_neg (by decide)]
    exact search_leading_star_false fuel s

/-! Claim C2. -/

/-- C2 counterexample: the claim asserts `match("^cat|dog$", "xdog") = true`;
the code yields false, because the leading Begin instruction anchors the
whole search (only offset zero is tried, for every branch), so the second
branch can never match at offset one. -/
theorem C2_branch_anchor_cex : regex_run "^cat|dog$" "xdog" = some false := by
  decide

/-- C2 amended: alternation picks the matching branch
(`match("cat|dog", "dog")` is true), and a trailing dollar binds only to its
own branch (`match("cat|dog$", "xdog")` is true, the dollar constraining
only the "dog" branch while the search is unanchored); but a leading caret
anchors the entire search for all branches, so `match("^cat|dog$", "xdog")`
is false. -/
theorem C2_branch_anchor :
    regex_run "cat|dog" "dog" = some true ∧
    regex_run "cat|dog$" "xdog" = some true ∧
    regex_run "^cat|dog$" "xdog" = some false := by
  refine ⟨by decide, by decide, by decide⟩

/-! Claim C8. -/

/-- C8: refuted by the code (the compiler half holds, the matcher half does
not). Compiling "a|" yields exactly one Empty sentinel, at slot 2; but when
the leading atom of the subject "a" matches, the Or-skip loop jumps the
instruction pointer from slot 1 to slot 3, past the sentinel, and the match
result then depends on memory outside the compiled program: two instruction
memories that agree on every compiled slot (0, 1 and 2) give different
results, so the matcher read a slot past the sentinel. -/
theorem C8_or_skip_reads_past_sentinel :
    compile_pattern ['a', '|'] 100 = some prog_trailing_or ∧
    prog_trailing_or.length = 3 ∧
    (memOf prog_trailing_or 0 = mem_zeroed prog_trailing_or 0 ∧
     memOf prog_trailing_or 1 = mem_zeroed prog_trailing_or 1 ∧
     memOf prog_trailing_or 2 = mem_zeroed prog_trailing_or 2) ∧
    m_match_pattern (memOf prog_trailing_or) 10 0 ['a'] false false = some true ∧
    m_match_pattern (mem_zeroed prog_trailing_or) 10 0 ['a'] false false = some false := by
  refine ⟨by decide, by decide, ⟨by decide, by decide, by decide⟩, by decide, by decide⟩

/-! Claim C9, counterexample part. -/

/-- C9 counterexample: the compiler does split runs it could have coalesced.
In the pattern "ab." the bytes 'a' and 'b' are consecutive non-special
characters, yet the emitted run instruction covers only 'a' (length field 1)
and 'b' is emitted as a separate single-character instruction: the run scan
stops one byte early whenever the byte after next is one of the
quantifier-style specials (here the dot), so the coalescible run "ab" is
split. -/
theorem C9_split_run_cex :
    IS_SPECIAL_CHAR 'a' = false ∧ IS_SPECIAL_CHAR 'b' = false ∧
    IS_SPECIAL_MOD_CHAR '.' = true ∧
    compile_pattern ['a', 'b', '.'] 100 =
      some [{ str := ['a', 'b', '.', '/', 'g'], len := 1, type := P_CHAR_SEQUENCE },
            { ch := 'b', type := P_CHAR }, { type := P_DOT }, { type := P_EMPTY }] := by
  refine ⟨by decide, by decide, by decide, by decide⟩


/-! Claim C9, amended part: helper lemmas about literal runs. -/

theorem mod_char_special {x : Char} (h : IS_SPECIAL_MOD_CHAR x = true) :
    IS_SPECIAL_CHAR x = true := by
  rw [IS_SPECIAL_MOD_CHAR, Bool.and_eq_true] at h
  exact h.1

theorem compile_loop_len_zero (cap fuel : Nat) (p : List Char)
    (acc : List regex_pattern_t) :
    compile_loop cap fuel p 0 acc = some (acc ++ [{ type := P_EMPTY }]) := by
  cases fuel with
  | zero =>
    rw [compile_loop]
    rw [if_pos rfl]
  | succ g =>
    rw [compile_loop]
    rw [if_pos rfl]

/-- On a run of plain literal bytes (not special, not a backslash, not NUL)
followed by the "/g" envelope, the sequence scan takes in the whole run:
starting with a uint8_t count of `n` at the first byte it counts every
remaining byte of the run without stopping early. -/
theorem seq_scan_literal :
    ∀ (u : List Char) (n : Nat), u ≠ [] →
      (∀ c ∈ u, IS_SPECIAL_CHAR c = false ∧ c ≠ '\\' ∧ c ≠ '\x00') →
      n + u.length ≤ 256 →
      seq_scan (u ++ ['/', 'g']) u.length n = (n + (u.length - 1), u.length - 1)
  | [], _, hne, _, _ => absurd rfl hne
  | [c], n, _, _, _ => by
    simp only [List.cons_append, List.nil_append, List.length_cons, List.length_nil]
    rw [seq_scan, if_pos (Or.inl rfl)]
    rfl
  | c :: c' :: u', n, _, hg, hn => by
    simp only [List.cons_append, List.length_cons] at hn ⊢
    have h1 : ¬ (u'.length + 1 + 1 = 1 ∨ c = '\x00') := by
      rintro (hh | hh)
      · omega
      · exact (hg c (by simp)).2.2 hh
    have h2 : ¬ SGet (c' :: (u' ++ ['/', 'g'])) 0 = '\\' :=
      fun hh => (hg c' (by simp)).2.1 hh
    have h3 : ¬ IS_SPECIAL_MOD_CHAR (SGet (c' :: (u' ++ ['/', 'g'])) 1) = true := by
      have hchar : IS_SPECIAL_MOD_CHAR (SGet (u' ++ ['/', 'g']) 0) = false := by
        cases u' with
        | nil => decide
        | cons d w =>
          cases hms : IS_SPECIAL_MOD_CHAR (SGet ((d :: w) ++ ['/', 'g']) 0) with
          | false => rfl
          | true =>
            have hdd : IS_SPECIAL_CHAR d = true := mod_char_special hms
            rw [(hg d (by simp)).1] at hdd
            exact Bool.noConfusion hdd
      intro hcon
      have hcon2 : IS_SPECIAL_MOD_CHAR (SGet (u' ++ ['/', 'g']) 0) = true := hcon
      rw [hchar] at hcon2
      exact Bool.noConfusion hcon2
    have h4 : ¬ (c ≠ '\\' ∧ IS_SPECIAL_CHAR (SGet (c' :: (u' ++ ['/', 'g'])) 0) = true) := by
      rintro ⟨-, hh⟩
      have hdd : IS_SPECIAL_CHAR c' = true := hh
      rw [(hg c' (by simp)).1] at hdd
      exact Bool.noConfusion hdd
    rw [seq_scan, if_neg h1, if_neg h2, if_neg h3, if_neg h4]
    have hmod : (n + 1) % 256 = n + 1 := Nat.mod_eq_of_lt (by omega)
    rw [hmod]
    have ih := seq_scan_literal (c' :: u') (n + 1) (List.cons_ne_nil c' u')
      (fun d hd => hg d (List.mem_cons_of_mem c hd))
      (by simp only [List.length_cons]; omega)
    simp only [List.cons_append, List.length_cons] at ih
    have e1 : u'.length + 1 + 1 - 1 = u'.length + 1 := rfl
    rw [e1, ih]
    simp only [Prod.mk.injEq]
    omega

/-- The default case of the compile switch: when the current byte is an
ordinary literal and the lookahead allows a run, one sequence instruction
covering the scanned run is emitted. -/
theorem compile_step_default (p : List Char) (len : Nat)
    (acc : List regex_pattern_t)
    (h0 : IS_SPECIAL_CHAR (SGet p 0) = false) (hb : ¬ SGet p 0 = '\\')
    (h1 : 1 < len ∧ ¬ IS_SPECIAL_CHAR (SGet p 1) = true) :
    compile_step p len acc =
      ((seq_scan p len 1).2 + 1,
       acc ++ [{ type := P_CHAR_SEQUENCE, str := p, len := (seq_scan p len 1).1 }]) := by
  have hne : ∀ x : Char, IS_SPECIAL_CHAR x = true → ¬ SGet p 0 = x := by
    intro x hx he
    rw [he, hx] at h0
    exact Bool.noConfusion h0
  have hbt : brace_try p acc.length = none := by
    rw [brace_try, if_neg]
    rintro ⟨hc, -⟩
    exact hne '\x7b' (by decide) hc
  rw [compile_step, hbt]
  rw [if_neg (hne '^' (by decide)), if_neg (hne '$' (by decide)),
    if_neg (hne '.' (by decide)), if_neg (hne '*' (by decide)),
    if_neg (hne '+' (by decide)), if_neg (hne '?' (by decide)),
    if_neg (hne '|' (by decide)), if_neg (hne '(' (by decide)),
    if_neg (hne ')' (by decide)), if_neg hb, if_neg (hne '[' (by decide)),
    if_pos h1]

/-- C9 amended: coalescing happens and covers maximal runs of plain literal
bytes. Compiling "hello" yields exactly one character-sequence instruction
spanning all five bytes plus the Empty sentinel; and in general every
pattern of two to 255 plain literal bytes (not special, not a backslash, not
NUL) compiles to a single character-sequence instruction spanning the whole
pattern, plus the sentinel. (The unqualified maximality of the original
claim is refuted separately: a run followed by a quantifier-style special is
split one byte early, as in "ab.".) -/
theorem C9_literal_run_coalescing :
    compile_pattern ("hello".toList) 100 =
      some [{ str := srcOf ("hello".toList), len := 5, type := P_CHAR_SEQUENCE },
            { type := P_EMPTY }] ∧
    (∀ pat cap, 2 ≤ pat.length → pat.length ≤ 255 → 1 ≤ cap →
      (∀ c ∈ pat, IS_SPECIAL_CHAR c = false ∧ c ≠ '\\' ∧ c ≠ '\x00') →
      compile_pattern pat cap =
        some [{ str := srcOf pat, len := pat.length, type := P_CHAR_SEQUENCE },
              { type := P_EMPTY }]) := by
  constructor
  · decide
  · intro pat cap h2 h255 hcap hg
    rcases pat with _ | ⟨c, t⟩
    · simp only [List.length_nil] at h2
      omega
    rcases t with _ | ⟨c', u'⟩
    · simp only [List.length_cons, List.length_nil] at h2
      omega
    rw [compile_pattern, srcOf]
    simp only [List.cons_append, List.length_cons] at h255 hg ⊢
    rw [compile_loop]
    rw [if_neg (show ¬ (u'.length + 1 + 1 = 0) by omega)]
    rw [if_neg (show ¬ cap ≤ List.length ([] : List regex_pattern_t) by
      simp only [List.length_nil]; omega)]
    have h0 : IS_SPECIAL_CHAR (SGet (c :: c' :: (u' ++ ['/', 'g'])) 0) = false :=
      (hg c (by simp)).1
    have hb : ¬ SGet (c :: c' :: (u' ++ ['/', 'g'])) 0 = '\\' :=
      fun hh => (hg c (by simp)).2.1 hh
    have h1 : 1 < u'.length + 1 + 1 ∧
        ¬ IS_SPECIAL_CHAR (SGet (c :: c' :: (u' ++ ['/', 'g'])) 1) = true := by
      refine ⟨by omega, ?_⟩
      intro hh
      have hdd : IS_SPECIAL_CHAR c' = true := hh
      rw [(hg c' (by simp)).1] at hdd
      exact Bool.noConfusion hdd
    have hsl : seq_scan (c :: c' :: (u' ++ ['/', 'g'])) (u'.length + 1 + 1) 1 =
        (u'.length + 1 + 1, u'.length + 1) := by
      have hs := seq_scan_literal (c :: c' :: u') 1 (by simp) hg
        (by simp only [List.length_cons]; omega)
      simp only [List.cons_append, List.length_cons] at hs
      rw [hs]
      simp only [Prod.mk.injEq]
      omega
    rw [compile_step_default (c :: c' :: (u' ++ ['/', 'g'])) (u'.length + 1 + 1) []
      h0 hb h1]
    rw [hsl]
    dsimp only
    rw [Nat.sub_self, compile_loop_len_zero]
    simp only [List.cons_append, List.nil_append]

/-- Closed instance of the general coalescing statement at the two-byte
literal pattern "hi" with a two-slot buffer capacity. -/
theorem C9_literal_run_coalescing_witness :
    compile_pattern ['h', 'i'] 1 =
      some [{ str := srcOf ['h', 'i'], len := 2, type := P_CHAR_SEQUENCE },
            { type := P_EMPTY }] :=
  C9_literal_run_coalescing.2 ['h', 'i'] 1 (by decide) (by decide) (by decide)
    (by decide)

/-! Claim C5. -/

/-- C5 counterexample: "the matcher advances past the Or and tries the next
alternative" is false on the code. In "ab|c" against "c", the alternative
'c' on its own matches the subject (second conjunct: the matcher started
fresh at slot 2 succeeds), yet the whole pattern does not match at any
offset: the failed sequence atom sets the never-reset `ret` flag, and the
bare single-character alternative reached through the Or is then failed
through the stale `if (ret)` state without `match_one_char` ever being
consulted. -/
theorem C5_or_sticky_cex :
    compile_pattern ['a', 'b', '|', 'c'] 100 = some prog_ab_or_c ∧
    m_match_pattern (memOf prog_ab_or_c) 10 2 ['c'] false false = some true ∧
    regex_match prog_ab_or_c 1000 ['c'] = some false := by
  refine ⟨by decide, by decide, by decide⟩

/-- C5 amended: the step equations of match_pattern at an Or instruction.
When the previous atom succeeded, the matcher skips forward over the whole
contiguous Or-chain (the skip loop jumps an Or together with the alternative
after it, repeating while an Or remains) and resumes only at the first slot
past the chain, so no instruction of a skipped alternative is ever executed
(first successful branch wins); when the previous atom failed, it advances
one slot, into the next alternative. But advancing into an alternative does
not mean evaluating it: the fifth equation shows that a bare
single-character alternative (no evaluable branch applies to it) reached
with the sticky `ret` flag already set — as after any failed sequence,
range or end-of-string atom earlier in the same invocation — is failed
outright, without the character test running. The concrete run shows
first-wins end to end on branches that are evaluable atoms. -/
theorem C5_or_resolution :
    (∀ mem fuel ip s ret, (mem ip).type = P_OR →
      m_match_pattern mem (fuel + 1) ip s true ret =
        (match m_skip_or_chain mem (fuel + 1) ip with
         | none => none
         | some ip2 => m_match_pattern mem fuel ip2 s false ret)) ∧
    (∀ mem fuel ip s ret, (mem ip).type = P_OR →
      m_match_pattern mem (fuel + 1) ip s false ret =
        m_match_pattern mem fuel (ip + 1) s false ret) ∧
    (∀ mem fuel ip, (mem ip).type = P_OR →
      m_skip_or_chain mem (fuel + 1) ip = m_skip_or_chain mem fuel (ip + 2)) ∧
    (∀ mem fuel ip, ¬ (mem ip).type = P_OR →
      m_skip_or_chain mem (fuel + 1) ip = some ip) ∧
    (∀ mem fuel ip s prev,
      ¬ (mem ip).type = P_OR → ¬ (mem ip).type = P_CAPTURE_START →
      ¬ (mem ip).type = P_CAPTURE_END →
      ¬ ((mem ip).type = P_EMPTY ∨ (mem (ip + 1)).type = P_QM) →
      ¬ ((mem ip).min ≠ 0 ∨ (mem ip).max ≠ 0) →
      ¬ (mem ip).type = P_CHAR_SEQUENCE →
      ¬ ((mem ip).type = P_END ∧ (mem (ip + 1)).type = P_EMPTY) →
      m_match_pattern mem (fuel + 1) ip s prev true =
        (if (mem (ip + 1)).type = P_OR then
          m_match_pattern mem fuel (ip + 1) s false true
        else some false)) ∧
    regex_run "cat|car|dog" "car" = some true := by
  refine ⟨?_, ?_, ?_, ?_, ?_, by decide⟩
  · intro mem fuel ip s ret h
    rw [m_match_pattern, if_pos h, if_pos rfl]
  · intro mem fuel ip s ret h
    rw [m_match_pattern, if_pos h, if_neg (by decide)]
  · intro mem fuel ip h
    rw [m_skip_or_chain, if_pos h]
  · intro mem fuel ip h
    rw [m_skip_or_chain, if_neg h]
  · intro mem fuel ip s prev h1 h2 h3 h4 h5 h6 h7
    rw [m_match_pattern, if_neg h1, if_neg h2, if_neg h3, if_neg h4, if_neg h5,
      if_neg h6, if_neg h7, if_pos rfl]

/-- Closed instance of the Or-resolution equations: on the compiled "a|b"
program, at the Or in slot 1 after a successful atom the matcher continues
at slot 3 (past the whole chain) and after a failed atom at slot 2; on the
compiled "ab|c" program, the bare character alternative in slot 2 reached
with the sticky flag set is resolved by the stale-state equation. -/
theorem C5_or_resolution_witness :
    (m_match_pattern (memOf prog_ab_alt) 6 1 [] true false =
      (match m_skip_or_chain (memOf prog_ab_alt) 6 1 with
       | none => none
       | some ip2 => m_match_pattern (memOf prog_ab_alt) 5 ip2 [] false false)) ∧
    (m_match_pattern (memOf prog_ab_alt) 6 1 [] false false =
      m_match_pattern (memOf prog_ab_alt) 5 2 [] false false) ∧
    (m_skip_or_chain (memOf prog_ab_alt) 6 1 = m_skip_or_chain (memOf prog_ab_alt) 5 3) ∧
    (m_skip_or_chain (memOf prog_ab_alt) 6 0 = some 0) ∧
    (m_match_pattern (memOf prog_ab_or_c) 6 2 ['c'] false true =
      (if (memOf prog_ab_or_c 3).type = P_OR then
        m_match_pattern (memOf prog_ab_or_c) 5 3 ['c'] false true
      else some false)) :=
  ⟨C5_or_resolution.1 (memOf prog_ab_alt) 5 1 [] false (by decide),
   C5_or_resolution.2.1 (memOf prog_ab_alt) 5 1 [] false (by decide),
   C5_or_resolution.2.2.1 (memOf prog_ab_alt) 5 1 (by decide),
   C5_or_resolution.2.2.2.1 (memOf prog_ab_alt) 5 0 (by decide),
   C5_or_resolution.2.2.2.2.1 (memOf prog_ab_or_c) 5 2 ['c'] false (by decide)
     (by decide) (by decide) (by decide) (by decide) (by decide) (by decide)⟩

/-! Claim C1. -/

/-- C1: confirmed. The range matcher: given that its greedy consumption loop
ends with `cnt` repetitions consumed and subject position `s2`, the range
matcher succeeds iff `cnt` lies in `[min, max]` and the remainder of the
program matches from `s2` (trivially so when there is no remainder, i.e.
CAN_MATCH_MORE is false). The second conjunct is the greedy
continuation-checked policy of the loop itself: after a successful
repetition, once the count has reached `min` and the probe of the rest of
the program succeeds, that count is locked in (the loop returns it at once,
exploring no other counts). The runs check the spec's quantifier examples,
including the unanchored "aaaa" success and the anchored "^a\x7b2,3\x7d$"
failure. -/
theorem C1_range_matcher_semantics :
    (∀ mem fuel ip s cnt s2,
      m_range_loop mem fuel ip s 0 = some (cnt, s2) →
      (m_match_pattern_range mem (fuel + 1) ip s = some true ↔
        ((mem ip).min ≤ cnt ∧ cnt ≤ (mem ip).max ∧
          (CAN_MATCH_MORE mem ip = true →
            m_match_pattern mem fuel (ip + 1) s2 true false = some true)))) ∧
    (∀ mem fuel ip s cnt s2,
      (cnt < (mem ip).max ∧ cAt s ≠ '\x00') →
      (if (mem ip).type = P_CHAR_SEQUENCE then
        (if (match_char_sequence (mem ip) s).isSome then some (s.drop (mem ip).len)
         else none)
       else (if match_one_char (mem ip) s then some s.tail else none)) = some s2 →
      CAN_MATCH_MORE mem ip = true →
      m_match_pattern mem fuel (ip + 1) s2 false false = some true →
      (mem ip).min ≤ cnt + 1 →
      m_range_loop mem (fuel + 1) ip s cnt = some (cnt + 1, s2)) ∧
    regex_run "a\x7b2,3\x7d" "a" = some false ∧
    regex_run "a\x7b2,3\x7d" "aa" = some true ∧
    regex_run "a\x7b2,3\x7d" "aaa" = some true ∧
    regex_run "a\x7b2,3\x7d" "aaaa" = some true ∧
    regex_run "^a\x7b2,3\x7d$" "aaaa" = some false := by
  refine ⟨?_, ?_, by decide, by decide, by decide, by decide, by decide⟩
  · intro mem fuel ip s cnt s2 h
    rw [m_match_pattern_range, h]
    dsimp only
    by_cases hb : (mem ip).min ≤ cnt ∧ cnt ≤ (mem ip).max
    · rw [if_pos hb]
      by_cases hc : CAN_MATCH_MORE mem ip = true
      · rw [if_pos hc]
        constructor
        · intro hm
          exact ⟨hb.1, hb.2, fun _ => hm⟩
        · intro hm
          exact hm.2.2 hc
      · rw [if_neg hc]
        constructor
        · intro _
          exact ⟨hb.1, hb.2, fun hcc => absurd hcc hc⟩
        · intro _
          rfl
    · rw [if_neg hb]
      constructor
      · intro hm
        exact absurd hm (by simp)
      · intro hm
        exact absurd ⟨hm.1, hm.2.1⟩ hb
  · intro mem fuel ip s cnt s2 h1 hs hcm hp hmin
    rw [m_range_loop, if_pos h1, hs]
    dsimp only
    rw [if_pos hcm, hp]
    dsimp only
    rw [if_pos hmin]

/-- Closed instance of both range-matcher statements on the compiled
"a\x7b1,3\x7db" program against the subject "ab": the greedy loop locks in one
repetition after its continuation probe succeeds, and the range matcher's
success is equivalent to the in-bounds count plus matching remainder. -/
theorem C1_range_matcher_semantics_witness :
    (m_match_pattern_range (memOf prog_a13b) 7 0 ['a', 'b'] = some true ↔
      ((memOf prog_a13b 0).min ≤ 1 ∧ (1 : Int) ≤ (memOf prog_a13b 0).max ∧
        (CAN_MATCH_MORE (memOf prog_a13b) 0 = true →
          m_match_pattern (memOf prog_a13b) 6 1 ['b'] true false = some true))) ∧
    m_range_loop (memOf prog_a13b) 6 0 ['a', 'b'] 0 = some (1, ['b']) :=
  ⟨C1_range_matcher_semantics.1 (memOf prog_a13b) 6 0 ['a', 'b'] 1 ['b'] (by decide),
   C1_range_matcher_semantics.2.1 (memOf prog_a13b) 5 0 ['a', 'b'] 0 ['b']
     (by decide) (by decide) (by decide) (by decide) (by decide)⟩

/-! Claim C7. -/

/-- The candidate-offset loop tried at every start offset: on a subject with
no embedded NUL, provided the single-position matcher's budget suffices at
every offset (no `none`), the loop succeeds exactly when the matcher
succeeds at some offset. -/
theorem search_loop_spec (mem : Nat → regex_pattern_t) (fuel ip : Nat) :
    ∀ s : List Char, '\x00' ∉ s →
      (∀ k, k ≤ s.length → m_match_pattern mem fuel ip (s.drop k) false false ≠ none) →
      (search_loop mem fuel ip s = some true ↔
        ∃ k, k ≤ s.length ∧
          m_match_pattern mem fuel ip (s.drop k) false false = some true)
  | [], _, hnn => by
    rw [search_loop]
    constructor
    · intro hm
      exact ⟨0, Nat.le_refl 0, hm⟩
    · rintro ⟨k, hk, hm⟩
      have hk0 : k = 0 := Nat.le_zero.mp hk
      subst hk0
      exact hm
  | c :: r, hns, hnn => by
    rw [search_loop]
    rcases h0 : m_match_pattern mem fuel ip (c :: r) false false with _ | b
    · exact absurd h0 (hnn 0 (Nat.zero_le _))
    · cases b with
      | true =>
        constructor
        · intro _
          exact ⟨0, Nat.zero_le _, h0⟩
        · intro _
          rfl
      | false =>
        have hc : c ≠ '\x00' := fun hh => hns (by rw [← hh]; exact List.mem_cons_self c r)
        rw [if_pos hc]
        have ih := search_loop_spec mem fuel ip r
          (fun hm => hns (List.mem_cons_of_mem c hm))
          (fun k hk => hnn (k + 1) (by simp only [List.length_cons]; omega))
        rw [ih]
        constructor
        · rintro ⟨k, hk, hm⟩
          exact ⟨k + 1, by simp only [List.length_cons]; omega, hm⟩
        · rintro ⟨k, hk, hm⟩
          cases k with
          | zero =>
            rw [List.drop_zero, h0] at hm
            exact absurd hm (by simp)
          | succ j =>
            refine ⟨j, ?_, hm⟩
            simp only [List.length_cons] at hk
            omega

/-- C7: confirmed. With a leading Begin instruction the search is exactly
one matcher call past the anchor at offset zero; without one, and on a
subject free of embedded NULs whose every offset stays within the matcher
budget, the search succeeds iff the single-position matcher succeeds at some
start offset (offsets tried left to right, first success returned). The runs
check the spec's anchoring examples. -/
theorem C7_search_offsets :
    (∀ prog fuel s, (memOf prog 0).type = P_BEGIN →
      regex_match prog fuel s = m_match_pattern (memOf prog) fuel 1 s false false) ∧
    (∀ prog fuel s, ¬ (memOf prog 0).type = P_BEGIN → '\x00' ∉ s →
      (∀ k, k ≤ s.length →
        m_match_pattern (memOf prog) fuel 0 (s.drop k) false false ≠ none) →
      (regex_match prog fuel s = some true ↔
        ∃ k, k ≤ s.length ∧
          m_match_pattern (memOf prog) fuel 0 (s.drop k) false false = some true)) ∧
    regex_run "^abc" "abc" = some true ∧
    regex_run "^abc" "xabc" = some false ∧
    regex_run "abc$" "xabc" = some true ∧
    regex_run "abc$" "abcx" = some false := by
  refine ⟨?_, ?_, by decide, by decide, by decide, by decide⟩
  · intro prog fuel s h
    rw [regex_match, if_pos h]
  · intro prog fuel s h hns hnn
    rw [regex_match, if_neg h]
    exact search_loop_spec (memOf prog) fuel 0 s hns hnn

/-- Closed instance of the search-offset characterization: the anchored
program "^a" searches by a single matcher call past the anchor, and the
unanchored "a|b" program matches "b" at offset zero. -/
theorem C7_search_offsets_witness :
    (regex_match prog_anchor 5 ['a'] =
      m_match_pattern (memOf prog_anchor) 5 1 ['a'] false false) ∧
    (regex_match prog_ab_alt 9 ['b'] = some true ↔
      ∃ k, k ≤ 1 ∧
        m_match_pattern (memOf prog_ab_alt) 9 0 (List.drop k ['b']) false false =
          some true) :=
  ⟨C7_search_offsets.1 prog_anchor 5 ['a'] (by decide),
   C7_search_offsets.2.1 prog_ab_alt 9 ['b'] (by decide) (by decide) (by decide)⟩

/-! Claim C6. -/

theorem SGet_drop (l : List Char) (i j : Nat) :
    SGet (l.drop i) j = SGet l (i + j) := by
  simp only [SGet, List.getD_eq_getElem?_getD, List.getElem?_drop]

/-- The range window test at payload index `i`, translated to the window
condition the specification words: at least three remaining payload bytes,
a dash in the middle, a non-dash input, and the input between the ends. -/
theorem match_class_range_iff (p : regex_pattern_t) (i : Nat) (c : Char) :
    match_class_range (p.str.drop i) (p.len - i) c = true ↔
      (3 ≤ p.len - i ∧ SGet p.str (i + 1) = '-' ∧ c ≠ '-' ∧
        SGet p.str i ≤ c ∧ c ≤ SGet p.str (i + 2)) := by
  rw [match_class_range]
  simp only [SGet_drop, Nat.add_zero]
  by_cases h : 3 ≤ p.len - i ∧ SGet p.str (i + 1) = '-' ∧ c ≠ '-'
  · rw [if_pos h, decide_eq_true_eq]
    constructor
    · intro hle
      exact ⟨h.1, h.2.1, h.2.2, hle.1, hle.2⟩
    · intro hh
      exact ⟨hh.2.2.2.1, hh.2.2.2.2⟩
  · rw [if_neg h]
    constructor
    · intro hf
      exact absurd hf (by simp)
    · intro hh
      exact absurd ⟨hh.1, hh.2.1, hh.2.2.1⟩ h

/-- The payload scan of match_class_char computes, step for step, the
first-satisfied-alternative semantics the specification describes. -/
theorem class_loops_agree (p : regex_pattern_t) (c : Char) :
    ∀ gas i, class_char_loop p c i gas = class_spec_loop p c i gas := by
  intro gas
  induction gas with
  | zero =>
    intro i
    rw [class_char_loop, class_spec_loop]
  | succ g ih =>
    intro i
    rw [class_char_loop, class_spec_loop]
    by_cases hi : i < p.len
    · rw [if_pos hi, if_pos hi]
      by_cases hr : match_class_range (p.str.drop i) (p.len - i) c = true
      · rw [if_pos hr, if_pos ((match_class_range_iff p i c).mp hr)]
      · rw [if_neg hr, if_neg (fun hh => hr ((match_class_range_iff p i c).mpr hh))]
        by_cases he : SGet p.str i = '\\'
        · rw [if_pos he, if_pos he]
          by_cases hm : IS_SPECIAL_META_CHAR (SGet p.str (i + 1)) = true
          · rw [if_pos hm, if_pos hm]
            by_cases hsp : match_special_char (SGet p.str (i + 1)) c = true
            · rw [if_pos hsp, hsp, Bool.true_or]
            · rw [if_neg hsp, (Bool.not_eq_true _).mp hsp, Bool.false_or]
              exact ih (i + 2)
          · rw [if_neg hm, if_neg hm]
            by_cases hl : SGet p.str (i + 1) = c
            · rw [if_pos hl, decide_eq_true hl, Bool.true_or]
            · rw [if_neg hl, decide_eq_false hl, Bool.false_or]
              exact ih (i + 2)
        · rw [if_neg he, if_neg he]
          by_cases hq : c = SGet p.str i
          · rw [if_pos hq]
            by_cases hd : c = '-'
            · rw [if_pos hd, if_pos (⟨by rw [← hq, hd], hd⟩ :
                SGet p.str i = '-' ∧ c = '-')]
            · have hnd : ¬ (SGet p.str i = '-' ∧ c = '-') := fun hh => hd hh.2
              rw [if_neg hd, if_neg hnd, if_pos hq.symm]
          · have hnd : ¬ (SGet p.str i = '-' ∧ c = '-') := by
              rintro ⟨ha, hb⟩
              exact hq (by rw [ha, hb])
            have hne : ¬ SGet p.str i = c := fun hh => hq hh.symm
            rw [if_neg hq, if_neg hnd, if_neg hne]
            exact ih (i + 1)
    · rw [if_neg hi, if_neg hi]

/-- C6: confirmed. The class scan of the code equals the specification's
left-to-right first-satisfied-alternative semantics (range windows, class
escapes, escaped literals, the positional bare-dash rule, exact equality);
a character-class instruction applies that scan to the current input byte
and a negated class is its logical complement. The runs check the spec's
class examples. -/
theorem C6_char_class_semantics :
    (∀ p c, match_class_char p c = class_spec p c) ∧
    (∀ p s, p.type = P_CHAR_CLASS → match_one_char p s = match_class_char p (cAt s)) ∧
    (∀ p s, p.type = P_CHAR_CLASS_NOT →
      match_one_char p s = !match_class_char p (cAt s)) ∧
    regex_run "[0-9]" "5" = some true ∧
    regex_run "[^0-9]" "5" = some false ∧
    regex_run "[a-z-]" "-" = some true ∧
    regex_run "\\d" "7" = some true ∧
    regex_run "\\D" "7" = some false := by
  refine ⟨?_, ?_, ?_, by decide, by decide, by decide, by decide, by decide⟩
  · intro p c
    rw [match_class_char, class_spec]
    exact class_loops_agree p c (p.len + 1) 0
  · intro p s h
    have hnd : ¬ p.type = P_DOT := by
      rw [h]
      decide
    rw [match_one_char, if_neg hnd, if_pos h]
  · intro p s h
    have hnd : ¬ p.type = P_DOT := by
      rw [h]
      decide
    have hnc : ¬ p.type = P_CHAR_CLASS := by
      rw [h]
      decide
    rw [match_one_char, if_neg hnd, if_neg hnc, if_pos h]

/-- Closed instance of the class-instruction equations on the payload "0-9":
a class instruction applies the scan, a negated one its complement. -/
theorem C6_char_class_semantics_witness :
    (match_one_char { str := ['0', '-', '9'], len := 3, type := P_CHAR_CLASS } ['5'] =
      match_class_char { str := ['0', '-', '9'], len := 3, type := P_CHAR_CLASS }
        (cAt ['5'])) ∧
    (match_one_char { str := ['0', '-', '9'], len := 3, type := P_CHAR_CLASS_NOT } ['5'] =
      !match_class_char { str := ['0', '-', '9'], len := 3, type := P_CHAR_CLASS_NOT }
        (cAt ['5'])) :=
  ⟨C6_char_class_semantics.2.1 { str := ['0', '-', '9'], len := 3, type := P_CHAR_CLASS }
     ['5'] (by decide),
   C6_char_class_semantics.2.2.1
     { str := ['0', '-', '9'], len := 3, type := P_CHAR_CLASS_NOT } ['5'] (by decide)⟩

/-! Claim C4: helper lemmas on int16_t truncation, the shapes the brace
lookahead can return, and preservation of the min ≤ max invariant by each
kind of compile step. -/

theorem toInt16_small (n : Nat) (h : n < 32768) : toInt16 n = (n : Int) := by
  rw [toInt16]
  have hm : n % 65536 = n := Nat.mod_eq_of_lt (by omega)
  rw [hm, if_pos h]

theorem toInt16_le_range_max (n : Nat) (h : n < 32768) : toInt16 n ≤ RANGE_MAX := by
  rw [toInt16_small n h, RANGE_MAX]
  omega

theorem toInt16_mono {m n : Nat} (h1 : m < 32768) (h2 : n < 32768) (h : m ≤ n) :
    toInt16 m ≤ toInt16 n := by
  rw [toInt16_small m h1, toInt16_small n h2]
  omega

/-- A successful brace lookahead returns one of three shapes; the two-bound
shape is only returned when the first uint32_t bound is at most the second
(the reversed case is rejected before the closing brace is checked). -/
theorem brace_lookahead_shape {p : List Char} {t n1 n2 k : Nat}
    (h : brace_lookahead p = some (t, n1, n2, k)) :
    (t = 1 ∧ n2 = 0) ∨ (t = 2 ∧ n2 = 0) ∨ (t = 3 ∧ n1 ≤ n2) := by
  rw [brace_lookahead] at h
  split at h
  · rcases h1 : scan_digits (p.drop 1) 0 with ⟨v1, k1, r1⟩
    rw [h1] at h
    dsimp only at h
    repeat' split at h
    all_goals try exact Option.noConfusion h
    all_goals injection h with h
    all_goals simp only [Prod.mk.injEq] at h
    all_goals omega
  · exact Option.noConfusion h

theorem brace_try_some {p : List Char} {i : Nat} {x : Nat × Nat × Nat × Nat}
    (h : brace_try p i = some x) :
    SGet p 0 = '\x7b' ∧ brace_lookahead p = some x := by
  rw [brace_try] at h
  by_cases hc : SGet p 0 = '\x7b' ∧ i ≠ 0
  · rw [if_pos hc] at h
    exact ⟨hc.1, h⟩
  · rw [if_neg hc] at h
    exact Option.noConfusion h

theorem set_min_max_min_max (acc : List regex_pattern_t) (back : Nat)
    (mn mx : Int) (hmm : mn ≤ mx) (hacc : ∀ q ∈ acc, q.min ≤ q.max) :
    ∀ q ∈ set_min_max acc back mn mx, q.min ≤ q.max := by
  intro q hq
  rw [set_min_max] at hq
  rcases List.mem_or_eq_of_mem_set hq with hq | hq
  · exact hacc q hq
  · rw [hq]
    exact hmm

theorem quant_apply_min_max (acc : List regex_pattern_t) (mn mx : Int)
    (hmm : mn ≤ mx) (hacc : ∀ q ∈ acc, q.min ≤ q.max) :
    ∀ q ∈ quant_apply acc mn mx, q.min ≤ q.max := by
  rw [quant_apply]
  by_cases h1 : 1 < acc.length ∧
      ((last_instr acc).type = P_CAPTURE_START ∨ (last_instr acc).type = P_CAPTURE_END)
  · rw [if_pos h1]
    exact set_min_max_min_max acc 2 mn mx hmm hacc
  · rw [if_neg h1]
    by_cases h2 : 0 < acc.length
    · rw [if_pos h2]
      exact set_min_max_min_max acc 1 mn mx hmm hacc
    · rw [if_neg h2]
      intro q hq
      rcases List.mem_append.mp hq with hq | hq
      · exact hacc q hq
      · obtain rfl := List.mem_singleton.mp hq
        decide

theorem brace_apply_min_max (acc : List regex_pattern_t) (typ n1 n2 : Nat)
    (hsh : (typ = 1 ∧ n2 = 0) ∨ (typ = 2 ∧ n2 = 0) ∨ (typ = 3 ∧ n1 ≤ n2))
    (hb1 : n1 < 32768) (hb2 : n2 < 32768) (hacc : ∀ q ∈ acc, q.min ≤ q.max) :
    ∀ q ∈ brace_apply acc typ n1 n2, q.min ≤ q.max := by
  rw [brace_apply]
  by_cases h1 : typ = 1
  · rw [if_pos h1]
    exact set_min_max_min_max acc _ _ _ (le_refl _) hacc
  · rw [if_neg h1]
    by_cases h2 : typ = 2
    · rw [if_pos h2]
      exact set_min_max_min_max acc _ _ _ (toInt16_le_range_max n1 hb1) hacc
    · rw [if_neg h2]
      have h3 : n1 ≤ n2 := by
        rcases hsh with ⟨h, -⟩ | ⟨h, -⟩ | ⟨-, h⟩
        · exact absurd h h1
        · exact absurd h h2
        · exact h
      exact set_min_max_min_max acc _ _ _ (toInt16_mono hb1 hb2 h3) hacc

theorem quant_apply_length (acc : List regex_pattern_t) (mn mx : Int) :
    (quant_apply acc mn mx).length ≤ acc.length + 1 := by
  rw [quant_apply]
  by_cases h1 : 1 < acc.length ∧
      ((last_instr acc).type = P_CAPTURE_START ∨ (last_instr acc).type = P_CAPTURE_END)
  · rw [if_pos h1]
    simp only [set_min_max, List.length_set]
    omega
  · rw [if_neg h1]
    by_cases h2 : 0 < acc.length
    · rw [if_pos h2]
      simp only [set_min_max, List.length_set]
      omega
    · rw [if_neg h2]
      simp only [List.length_append, List.length_cons, List.length_nil]
      omega

theorem brace_apply_length (acc : List regex_pattern_t) (typ n1 n2 : Nat) :
    (brace_apply acc typ n1 n2).length = acc.length := by
  rw [brace_apply]
  by_cases h1 : typ = 1
  · rw [if_pos h1]
    simp only [set_min_max, List.length_set]
  · rw [if_neg h1]
    by_cases h2 : typ = 2
    · rw [if_pos h2]
      simp only [set_min_max, List.length_set]
    · rw [if_neg h2]
      simp only [set_min_max, List.length_set]

/-- Every compile step emits at most one instruction. -/
theorem compile_step_length (p : List Char) (len : Nat) (acc : List regex_pattern_t) :
    (compile_step p len acc).2.length ≤ acc.length + 1 := by
  rcases compile_step_cases p len acc with
    ⟨t, n1, n2, k, hbt, he⟩ | ⟨k, q, _, _, _, he⟩ | ⟨mn, mx, _, _, he⟩
  · rw [he]
    dsimp only
    rw [brace_apply_length]
    omega
  · rw [he]
    simp only [List.length_append, List.length_cons, List.length_nil]
    omega
  · rw [he]
    dsimp only
    exact quant_apply_length acc mn mx

/-- Totality of the compile loop: with enough budget and an instruction
buffer large enough for one instruction per remaining source byte, the
capacity check never fires, so compilation succeeds. -/
theorem compile_loop_total (cap : Nat) :
    ∀ fuel len p acc, len < fuel → acc.length + len ≤ cap →
      (compile_loop cap fuel p len acc).isSome := by
  intro fuel
  induction fuel with
  | zero =>
    intro len p acc h _
    omega
  | succ g ih =>
    intro len p acc hlt hcap
    rw [compile_loop]
    by_cases hl : len = 0
    · rw [if_pos hl]
      rfl
    · rw [if_neg hl]
      rw [if_neg (show ¬ cap ≤ acc.length by omega)]
      rcases hcs : compile_step p len acc with ⟨k, acc2⟩
      dsimp only
      have hk : 1 ≤ k := by
        have := compile_step_pos p len acc
        rw [hcs] at this
        exact this
      have hlen2 : acc2.length ≤ acc.length + 1 := by
        have := compile_step_length p len acc
        rw [hcs] at this
        exact this
      exact ih (len - k) (p.drop k) acc2 (by omega) (by omega)

/-- The min ≤ max invariant of compiled instructions, under the hypothesis
that every brace quantifier the source can present parses to bounds below
2^15 (so the int16_t truncation is the identity on them). -/
theorem compile_loop_min_max (src : List Char)
    (hb : ∀ j, j < src.length → ∀ t n1 n2 k,
        brace_lookahead (src.drop j) = some (t, n1, n2, k) →
        n1 < 32768 ∧ n2 < 32768) :
    ∀ fuel cap p len acc prog, p <:+ src →
      (∀ q ∈ acc, q.min ≤ q.max) →
      compile_loop cap fuel p len acc = some prog →
      ∀ q ∈ prog, q.min ≤ q.max := by
  have hsent : ∀ (acc : List regex_pattern_t), (∀ q ∈ acc, q.min ≤ q.max) →
      ∀ q ∈ acc ++ [{ type := P_EMPTY }], q.min ≤ q.max := by
    intro acc hacc q hq
    rcases List.mem_append.mp hq with hq | hq
    · exact hacc q hq
    · obtain rfl := List.mem_singleton.mp hq
      decide
  intro fuel
  induction fuel with
  | zero =>
    intro cap p len acc prog _ hacc h
    rw [compile_loop] at h
    by_cases hl : len = 0
    · rw [if_pos hl] at h
      injection h with h
      rw [← h]
      exact hsent acc hacc
    · rw [if_neg hl] at h
      exact Option.noConfusion h
  | succ g ih =>
    intro cap p len acc prog hsuf hacc h
    rw [compile_loop] at h
    by_cases hl : len = 0
    · rw [if_pos hl] at h
      injection h with h
      rw [← h]
      exact hsent acc hacc
    · rw [if_neg hl] at h
      by_cases hcap : cap ≤ acc.length
      · rw [if_pos hcap] at h
        exact Option.noConfusion h
      · rw [if_neg hcap] at h
        rcases hcs : compile_step p len acc with ⟨k, acc2⟩
        rw [hcs] at h
        dsimp only at h
        have hacc2 : ∀ q ∈ acc2, q.min ≤ q.max := by
          rcases compile_step_cases p len acc with
            ⟨t, n1, n2, kk, hbt, he⟩ | ⟨kk, q0, hq1, hq2, hq3, he⟩ | ⟨mn, mx, hm1, hm2, he⟩
          · rw [hcs] at he
            injection he with he1 he2
            rw [he2]
            obtain ⟨hcq, hla⟩ := brace_try_some hbt
            have hpne : p ≠ [] := by
              intro hcon
              rw [hcon] at hcq
              exact absurd hcq (by decide)
            have hple : p.length ≤ src.length := hsuf.length_le
            have hppos : 1 ≤ p.length := by
              rcases p with _ | ⟨c, r⟩
              · exact absurd rfl hpne
              · simp only [List.length_cons]
                omega
            have hdrop : p = src.drop (src.length - p.length) :=
              List.suffix_iff_eq_drop.mp hsuf
            rw [hdrop] at hla
            have hbnd := hb (src.length - p.length) (by omega) t n1 n2 kk hla
            rw [← hdrop] at hla
            exact brace_apply_min_max acc t n1 n2 (brace_lookahead_shape hla)
              hbnd.1 hbnd.2 hacc
          · rw [hcs] at he
            injection he with he1 he2
            rw [he2]
            intro q hq
            rcases List.mem_append.mp hq with hq | hq
            · exact hacc q hq
            · obtain rfl := List.mem_singleton.mp hq
              rw [hq2, hq3]
          · rw [hcs] at he
            injection he with he1 he2
            rw [he2]
            exact quant_apply_min_max acc mn mx hm2 hacc
        exact ih cap (p.drop k) (len - k) acc2 prog
          ((List.drop_suffix k p).trans hsuf) hacc2 h

/-- C4 counterexample: the pattern "a\x7b32767,32768\x7d" compiles successfully,
but the uint32_t bounds 32767 ≤ 32768 pass the reversed-bounds check and are
then truncated to int16_t, so the stored instruction has min = 32767 and
max = -32768: a compiled instruction with min > max, refuting the claim's
unconditional invariant. -/
theorem C4_min_max_truncation_cex :
    compile_pattern
      ['a', '\x7b', '3', '2', '7', '6', '7', ',', '3', '2', '7', '6', '8', '\x7d'] 100 =
      some [{ ch := 'a', type := P_CHAR, min := 32767, max := -32768 },
            { type := P_EMPTY }] ∧
    ¬ ((32767 : Int) ≤ -32768) := by
  refine ⟨by decide, by decide⟩

/-- C4 amended: the invariant min ≤ max holds for every instruction of every
successful compilation whenever each brace group the source can present
parses to bounds below 2^15 (within int16_t; larger bounds are silently
truncated and can invert); a reversed brace group such as "a\x7b5,2\x7d" is
rejected by the lookahead and its text is compiled as literal pattern
content (here one literal run over "\x7b5," plus two literal characters)
rather than reported as an error; and no pattern whose length is below the
buffer capacity fails to compile (malformed braces included, compilation
always succeeds given capacity). -/
theorem C4_min_max_invariant :
    (∀ pat cap prog,
      (∀ j, j < (srcOf pat).length → ∀ t n1 n2 k,
          brace_lookahead ((srcOf pat).drop j) = some (t, n1, n2, k) →
          n1 < 32768 ∧ n2 < 32768) →
      compile_pattern pat cap = some prog →
      ∀ q ∈ prog, q.min ≤ q.max) ∧
    compile_pattern ['a', '\x7b', '5', ',', '2', '\x7d'] 100 =
      some [{ ch := 'a', type := P_CHAR },
            { str := ['\x7b', '5', ',', '2', '\x7d', '/', 'g'], len := 3,
              type := P_CHAR_SEQUENCE },
            { ch := '2', type := P_CHAR }, { ch := '\x7d', type := P_CHAR },
            { type := P_EMPTY }] ∧
    (∀ pat cap, pat.length < cap → (compile_pattern pat cap).isSome) := by
  refine ⟨?_, by decide, ?_⟩
  · intro pat cap prog hb h
    exact compile_loop_min_max (srcOf pat) hb (pat.length + 1) cap (srcOf pat)
      pat.length [] prog (List.suffix_refl _)
      (fun q hq => absurd hq (List.not_mem_nil q)) h
  · intro pat cap hlt
    exact compile_loop_total cap (pat.length + 1) pat.length (srcOf pat) []
      (by omega) (by simp only [List.length_nil]; omega)

/-- Closed instance of the amended invariant: the brace-free pattern "a"
satisfies the bounded-brace hypothesis vacuously, its compiled character
instruction satisfies min ≤ max, and a two-slot buffer suffices for it. -/
theorem C4_min_max_invariant_witness :
    ({ ch := 'a', type := P_CHAR } : regex_pattern_t).min ≤
      ({ ch := 'a', type := P_CHAR } : regex_pattern_t).max ∧
    (compile_pattern ['a'] 2).isSome :=
  ⟨C4_min_max_invariant.1 ['a'] 100
      [{ ch := 'a', type := P_CHAR }, { type := P_EMPTY }]
      (by
        intro j hj t n1 n2 k hl
        have hj3 : j < 3 := hj
        interval_cases j
        · rw [show brace_lookahead ((srcOf ['a']).drop 0) = none from by decide] at hl
          exact Option.noConfusion hl
        · rw [show brace_lookahead ((srcOf ['a']).drop 1) = none from by decide] at hl
          exact Option.noConfusion hl
        · rw [show brace_lookahead ((srcOf ['a']).drop 2) = none from by decide] at hl
          exact Option.noConfusion hl)
      (by decide) { ch := 'a', type := P_CHAR } (by decide),
   C4_min_max_invariant.2.2 ['a'] 2 (by decide)⟩

end RegexC
